import Mathlib

/-!
Shallow embedding of the at-rest encryption subsystem of the
local-patient-advocate repository.

Source files embedded here:
- `src/crypto_storage.py` — key derivation, key-store orchestration
  (`get_or_create_file_master_key`), and the Fernet-based file cipher
  (`encrypt_bytes` / `decrypt_bytes`);
- `src/database.py` — `get_patient_documents`, `add_document`;
- `src/views/documents.py` — filename de-duplication in
  `upload_document_click`, temporary-path choice in `open_doc_async`,
  and row construction in `refresh_table`.

Modelling conventions:
- Byte strings are `List Nat` (each entry one byte value).
- `os.urandom(n)` is modelled as a function of an explicit entropy seed,
  producing its base-256 digits; the only property used is that it
  returns `n` bytes.
- The external `cryptography.fernet` authenticated-encryption primitive
  is modelled symbolically: a token records the key it was produced
  under, a nonce, and the payload; decryption succeeds exactly when the
  presented key equals the token's key.  (Fernet key-format validation
  by the primitive's constructor is not modelled; all keys handled by
  the embedded code are produced by `Fernet.generate_key` or the KDF.)
- PBKDF2-HMAC-SHA256 is modelled as a symbolic constructor recording
  password, salt and iteration count (an ideal injective KDF).
- The three `app_settings` rows read and written by
  `get_or_create_file_master_key` are modelled by their decoded typed
  contents (the urlsafe-base64 / decimal-text encodings of the stored
  values are the external `base64` / `str`-`int` round-trips and carry
  no logic of their own); base64url itself is embedded concretely
  (`b64e`) where the code's byte-level output matters, namely for
  `Fernet.generate_key`.
-/

/-- Byte strings: one `Nat` per byte. -/
abbrev Bytes := List Nat

/-- Model of `os.urandom n`: `n` bytes drawn from an explicit entropy
seed (its base-256 digits).  The code relies only on the output having
`n` bytes. -/
def os_urandom (n : Nat) (seed : Nat) : Bytes :=
  (List.range n).map (fun i => seed / 256 ^ i % 256)

/-- The urlsafe base64 alphabet of `base64.urlsafe_b64encode`:
`A-Z`, `a-z`, `0-9`, `-`, `_` (ASCII codes). -/
def b64char (n : Nat) : Nat :=
  if n < 26 then 65 + n
  else if n < 52 then 97 + (n - 26)
  else if n < 62 then 48 + (n - 52)
  else if n = 62 then 45
  else 95

/-- `base64.urlsafe_b64encode` on byte strings (ASCII codes out;
61 is the pad character). -/
def b64e : Bytes → Bytes
  | [] => []
  | [a] => [b64char (a / 4), b64char (a % 4 * 16), 61, 61]
  | [a, b] => [b64char (a / 4), b64char (a % 4 * 16 + b / 16), b64char (b % 16 * 4), 61]
  | a :: b :: c :: rest =>
      b64char (a / 4) :: b64char (a % 4 * 16 + b / 16) ::
      b64char (b % 16 * 4 + c / 64) :: b64char (c % 64) :: b64e rest

/-- Decryption failure of the authenticated-encryption primitive
(`cryptography.fernet.InvalidToken`). -/
inductive FernetErr
  | invalidToken
deriving DecidableEq

namespace Fernet

/-- Symbolic Fernet token: records the key it was encrypted under, the
fresh per-encryption nonce, and the payload.  `κ` is the key type (raw
key bytes for the file cipher, a symbolic derived key for the FMK
wrapper). -/
structure Tok (κ : Type) where
  key : κ
  nonce : Nat
  payload : Bytes
deriving DecidableEq

/-- `Fernet.generate_key()`: urlsafe-base64 encoding of 32 random
bytes. -/
def generate_key (seed : Nat) : Bytes :=
  b64e (os_urandom 32 seed)

/-- `Fernet(k).encrypt(p)` with explicit nonce randomness. -/
def encrypt {κ : Type} (k : κ) (nonce : Nat) (p : Bytes) : Tok κ :=
  ⟨k, nonce, p⟩

/-- `Fernet(k).decrypt(t)`: succeeds exactly when the presented key is
the one the token was produced under, else `InvalidToken`. -/
def decrypt {κ : Type} [DecidableEq κ] (k : κ) (t : Tok κ) : Except FernetErr Bytes :=
  if t.key = k then .ok t.payload else .error .invalidToken

end Fernet

/-- Symbolic PBKDF2-HMAC-SHA256-derived wrapping key (ideal injective
KDF over password, salt and iteration count). -/
inductive WKey
  | pbkdf2 (password : String) (salt : Bytes) (iters : Int)
deriving DecidableEq

/-- `_derive_wrapping_fernet_key` from `src/crypto_storage.py` (lines
52-60): derives a wrapping key from password, salt and iteration count.
Note the source performs no empty-password check here; it derives a key
from any password, the empty one included. -/
def derive_wrapping_fernet_key (password : String) (salt : Bytes) (iters : Int) : WKey :=
  .pbkdf2 password salt iters

/-- `DEFAULT_KDF_ITERS` from `src/crypto_storage.py`. -/
def DEFAULT_KDF_ITERS : Int := 390000

/-- The three `app_settings` rows read and written by
`get_or_create_file_master_key`, by their decoded typed contents:
`crypto.fmk_wrapped_b64` (wrapped FMK token), `crypto.fmk_salt_b64`
(salt bytes), `crypto.kdf_iters` (decimal integer). -/
structure AppSettings where
  fmk_wrapped : Option (Fernet.Tok WKey)
  fmk_salt : Option Bytes
  kdf_iters : Option Int
deriving DecidableEq

/-- Error taxonomy of `get_or_create_file_master_key`:
`invalidInput` is the `ValueError` raised on an empty password,
`inconsistentKeyState` the `RuntimeError` of the partial-state
guardrail, `unlockFailed` the `RuntimeError` raised when unwrapping the
stored key fails (one combined wrong-password / corrupted-key
message). -/
inductive CryptoErr
  | invalidInput
  | inconsistentKeyState
  | unlockFailed
deriving DecidableEq

/-- Lines 82-84 of `src/crypto_storage.py`:
`iters = int(iters_row[0]) if iters_row and iters_row[0] else DEFAULT_KDF_ITERS`
followed by `if iters < 100_000: iters = DEFAULT_KDF_ITERS`. -/
def effective_kdf_iters (row : Option Int) : Int :=
  let iters := row.getD DEFAULT_KDF_ITERS
  if iters < 100000 then DEFAULT_KDF_ITERS else iters

/-- Explicit randomness consumed by one `get_or_create_file_master_key`
call: seeds for `os.urandom(16)` (salt), `Fernet.generate_key()` (FMK),
and the wrapper's per-encryption nonce. -/
structure Entropy where
  saltSeed : Nat
  fmkSeed : Nat
  nonceSeed : Nat
deriving DecidableEq

/-- `get_or_create_file_master_key` from `src/crypto_storage.py`
(lines 63-132).  Returns the result together with the settings state
after the call (error paths perform no settings write, so they return
the input state unchanged; the first-run path upserts all three rows
and commits). -/
def get_or_create_file_master_key (st : AppSettings) (db_password : String) (e : Entropy) :
    Except CryptoErr Bytes × AppSettings :=
  if db_password = "" then (.error .invalidInput, st)
  else
    let iters := effective_kdf_iters st.kdf_iters
    match st.fmk_wrapped, st.fmk_salt with
    | none, some _ => (.error .inconsistentKeyState, st)
    | some _, none => (.error .inconsistentKeyState, st)
    | none, none =>
        let salt := os_urandom 16 e.saltSeed
        let fmk := Fernet.generate_key e.fmkSeed
        let wrap_key := derive_wrapping_fernet_key db_password salt iters
        let wrapped := Fernet.encrypt wrap_key e.nonceSeed fmk
        (.ok fmk,
         { fmk_wrapped := some wrapped, fmk_salt := some salt, kdf_iters := some iters })
    | some wrapped, some salt =>
        let wrap_key := derive_wrapping_fernet_key db_password salt iters
        match Fernet.decrypt wrap_key wrapped with
        | .ok fmk => (.ok fmk, st)
        | .error _ => (.error .unlockFailed, st)

/-- `encrypt_bytes` from `src/crypto_storage.py` (line 135), with the
primitive's fresh nonce made explicit. -/
def encrypt_bytes (fmk : Bytes) (nonce : Nat) (plaintext : Bytes) : Fernet.Tok Bytes :=
  Fernet.encrypt fmk nonce plaintext

/-- `decrypt_bytes` from `src/crypto_storage.py` (line 139). -/
def decrypt_bytes (fmk : Bytes) (ciphertext : Fernet.Tok Bytes) : Except FernetErr Bytes :=
  Fernet.decrypt fmk ciphertext

/-- C1: Encryption/decryption round-trip: for every FMK produced by the
key store and for every plaintext byte sequence, including the empty
sequence, `decrypt_bytes fmk (encrypt_bytes fmk plaintext)` returns
exactly `plaintext`. -/
theorem c1_encrypt_decrypt_roundtrip
    (st : AppSettings) (pw : String) (e : Entropy) (fmk : Bytes) (st' : AppSettings)
    (hfmk : get_or_create_file_master_key st pw e = (.ok fmk, st'))
    (nonce : Nat) (plaintext : Bytes) :
    decrypt_bytes fmk (encrypt_bytes fmk nonce plaintext) = .ok plaintext := by
  simp [decrypt_bytes, encrypt_bytes, Fernet.decrypt, Fernet.encrypt]

/-- Witness for C1: a concrete first-run FMK and a concrete plaintext
(and the empty plaintext) round-trip. -/
theorem c1_encrypt_decrypt_roundtrip_witness :
    decrypt_bytes (Fernet.generate_key 1)
      (encrypt_bytes (Fernet.generate_key 1) 7 [3, 1, 4]) = .ok [3, 1, 4] ∧
    decrypt_bytes (Fernet.generate_key 1)
      (encrypt_bytes (Fernet.generate_key 1) 8 []) = .ok [] :=
  ⟨c1_encrypt_decrypt_roundtrip ⟨none, none, none⟩ "pw" ⟨0, 1, 2⟩
      (Fernet.generate_key 1) _ rfl 7 [3, 1, 4],
   c1_encrypt_decrypt_roundtrip ⟨none, none, none⟩ "pw" ⟨0, 1, 2⟩
      (Fernet.generate_key 1) _ rfl 8 []⟩

/-- The effective iteration count is never below the 100,000 floor. -/
theorem effective_kdf_iters_ge (row : Option Int) : 100000 ≤ effective_kdf_iters row := by
  cases row <;> simp [effective_kdf_iters, DEFAULT_KDF_ITERS, Option.getD] <;> split <;> omega

/-- A stored value at or above the floor is used as-is. -/
theorem effective_kdf_iters_of_ge (v : Int) (h : 100000 ≤ v) :
    effective_kdf_iters (some v) = v := by
  simp [effective_kdf_iters, Option.getD]
  omega

/-- Re-normalizing an already-normalized iteration count is the
identity (the first-run write stores a value at or above the floor). -/
theorem effective_kdf_iters_idem (row : Option Int) :
    effective_kdf_iters (some (effective_kdf_iters row)) = effective_kdf_iters row :=
  effective_kdf_iters_of_ge _ (effective_kdf_iters_ge row)

/-- First-run behavior of `get_or_create_file_master_key`: with a
non-empty password and both key rows absent, it generates salt and FMK
from fresh randomness, wraps the FMK under the password-derived key,
stores all three rows, and returns the plaintext FMK. -/
theorem goc_first_run (st : AppSettings) (pw : String) (e : Entropy)
    (hpw : pw ≠ "") (hw : st.fmk_wrapped = none) (hs : st.fmk_salt = none) :
    get_or_create_file_master_key st pw e =
      (.ok (Fernet.generate_key e.fmkSeed),
       { fmk_wrapped := some (Fernet.encrypt
           (derive_wrapping_fernet_key pw (os_urandom 16 e.saltSeed)
             (effective_kdf_iters st.kdf_iters))
           e.nonceSeed (Fernet.generate_key e.fmkSeed)),
         fmk_salt := some (os_urandom 16 e.saltSeed),
         kdf_iters := some (effective_kdf_iters st.kdf_iters) }) := by
  simp [get_or_create_file_master_key, hpw, hw, hs]

/-- The symbolic token records the key it was encrypted under. -/
theorem Fernet.encrypt_key {κ : Type} (k : κ) (n : Nat) (p : Bytes) :
    (Fernet.encrypt k n p).key = k := rfl

/-- The symbolic token carries the encrypted payload. -/
theorem Fernet.encrypt_payload {κ : Type} (k : κ) (n : Nat) (p : Bytes) :
    (Fernet.encrypt k n p).payload = p := rfl

/-- The ideal KDF is injective: equal derived keys come from equal
password, salt and iteration count. -/
theorem derive_wrapping_fernet_key_inj {p1 p2 : String} {s1 s2 : Bytes} {i1 i2 : Int}
    (h : derive_wrapping_fernet_key p1 s1 i1 = derive_wrapping_fernet_key p2 s2 i2) :
    p1 = p2 ∧ s1 = s2 ∧ i1 = i2 := by
  simpa [derive_wrapping_fernet_key, WKey.pbkdf2.injEq] using h

/-- Subsequent-run behavior: with a non-empty password and both key
rows present, the call unwraps with the password-derived key and either
returns the stored FMK or fails `unlockFailed`. -/
theorem goc_existing (st : AppSettings) (pw : String) (e : Entropy)
    (w : Fernet.Tok WKey) (salt : Bytes)
    (hpw : pw ≠ "") (hw : st.fmk_wrapped = some w) (hs : st.fmk_salt = some salt) :
    get_or_create_file_master_key st pw e =
      if w.key = derive_wrapping_fernet_key pw salt (effective_kdf_iters st.kdf_iters)
      then (.ok w.payload, st)
      else (.error .unlockFailed, st) := by
  by_cases hkey : w.key = derive_wrapping_fernet_key pw salt (effective_kdf_iters st.kdf_iters) <;>
    simp [get_or_create_file_master_key, hpw, hw, hs, Fernet.decrypt, hkey]

/-- C2: Wrong-password rejection: after first-run key creation with a
non-empty password `P1`, calling `get_or_create_file_master_key` with
any non-empty password `P2 ≠ P1` fails with the unlock-failed error and
never returns a key; moreover the error value is the single combined
wrong-password-or-corrupted-key failure, returned identically whenever
unwrapping the stored key fails, so it does not distinguish the two
causes. -/
theorem c2_wrong_password_rejection
    (st0 : AppSettings) (P1 P2 : String) (e1 e2 : Entropy)
    (fmk : Bytes) (st1 : AppSettings)
    (hw : st0.fmk_wrapped = none) (hs : st0.fmk_salt = none)
    (h1 : P1 ≠ "") (h2 : P2 ≠ "") (hne : P2 ≠ P1)
    (hrun : get_or_create_file_master_key st0 P1 e1 = (.ok fmk, st1)) :
    get_or_create_file_master_key st1 P2 e2 = (.error .unlockFailed, st1) ∧
    (∀ (st : AppSettings) (pw : String) (e : Entropy) (w : Fernet.Tok WKey) (salt : Bytes),
      pw ≠ "" → st.fmk_wrapped = some w → st.fmk_salt = some salt →
      w.key ≠ derive_wrapping_fernet_key pw salt (effective_kdf_iters st.kdf_iters) →
      get_or_create_file_master_key st pw e = (.error .unlockFailed, st)) := by
  constructor
  · rw [goc_first_run st0 P1 e1 h1 hw hs] at hrun
    injection hrun with hfmk hst1
    subst hst1
    rw [goc_existing _ P2 e2 _ _ h2 rfl rfl, if_neg]
    rw [Fernet.encrypt_key, effective_kdf_iters_idem]
    intro hkey
    exact hne (derive_wrapping_fernet_key_inj hkey).1.symm
  · intro st pw e w salt hpw hw' hs' hkey
    rw [goc_existing st pw e w salt hpw hw' hs', if_neg hkey]

/-- Witness for C2: concrete first run with password "p1", then a call
with "p2" fails with the unlock-failed error. -/
theorem c2_wrong_password_rejection_witness :
    get_or_create_file_master_key
      (get_or_create_file_master_key ⟨none, none, none⟩ "p1" ⟨0, 1, 2⟩).2
      "p2" ⟨3, 4, 5⟩ =
      (.error .unlockFailed, (get_or_create_file_master_key ⟨none, none, none⟩ "p1" ⟨0, 1, 2⟩).2) :=
  (c2_wrong_password_rejection ⟨none, none, none⟩ "p1" "p2" ⟨0, 1, 2⟩ ⟨3, 4, 5⟩
    (Fernet.generate_key 1) _ rfl rfl (by decide) (by decide) (by decide) rfl).1

/-- C3 counterexample: with only the salt row present and an empty
password supplied, the call fails with `invalidInput` (the empty-
password check fires first), not `inconsistentKeyState` — so the
guardrail error is not returned "regardless of the password". -/
theorem c3_counterexample :
    get_or_create_file_master_key ⟨none, some [1], none⟩ "" ⟨0, 0, 0⟩ =
      (.error .invalidInput, ⟨none, some [1], none⟩) ∧
    CryptoErr.invalidInput ≠ CryptoErr.inconsistentKeyState :=
  ⟨rfl, by decide⟩

/-- C3 (amended): whenever exactly one of the two settings rows
{wrapped FMK, salt} is present and the other absent, a call with any
NON-EMPTY password fails with `inconsistentKeyState` and leaves the
settings state unchanged (no key material generated or written); with
an empty password the call fails with `invalidInput` instead, still
without writing. -/
theorem c3_partial_state_guardrail
    (st : AppSettings) (pw : String) (e : Entropy)
    (hpw : pw ≠ "") (hmix : st.fmk_wrapped.isNone ≠ st.fmk_salt.isNone) :
    get_or_create_file_master_key st pw e = (.error .inconsistentKeyState, st) := by
  cases hw : st.fmk_wrapped <;> cases hs : st.fmk_salt <;>
    simp [hw, hs] at hmix <;>
    simp [get_or_create_file_master_key, hpw, hw, hs]

/-- Witness for C3 (amended): only the salt row present, non-empty
password, fails with `inconsistentKeyState` without a write. -/
theorem c3_partial_state_guardrail_witness :
    get_or_create_file_master_key ⟨none, some [1], none⟩ "p" ⟨0, 0, 0⟩ =
      (.error .inconsistentKeyState, ⟨none, some [1], none⟩) :=
  c3_partial_state_guardrail ⟨none, some [1], none⟩ "p" ⟨0, 0, 0⟩ (by decide) (by decide)

/-- C5: First-run idempotent key identity: from a key store with both
key rows absent and a non-empty password, a first call returns an FMK
and a second call with the same password returns the same FMK bytes
(and leaves the stored state untouched). -/
theorem c5_first_run_idempotent_key
    (st0 : AppSettings) (pw : String) (e1 e2 : Entropy)
    (fmk : Bytes) (st1 : AppSettings)
    (hw : st0.fmk_wrapped = none) (hs : st0.fmk_salt = none) (hpw : pw ≠ "")
    (hrun : get_or_create_file_master_key st0 pw e1 = (.ok fmk, st1)) :
    get_or_create_file_master_key st1 pw e2 = (.ok fmk, st1) := by
  rw [goc_first_run st0 pw e1 hpw hw hs] at hrun
  injection hrun with hfmk hst1
  injection hfmk with hfmk
  subst hst1
  rw [goc_existing _ pw e2 _ _ hpw rfl rfl, if_pos]
  · rw [Fernet.encrypt_payload, hfmk]
  · rw [Fernet.encrypt_key, effective_kdf_iters_idem]

/-- Witness for C5: concrete empty store, password "p", the second
call returns the same FMK as the first. -/
theorem c5_first_run_idempotent_key_witness :
    get_or_create_file_master_key
      (get_or_create_file_master_key ⟨none, none, none⟩ "p" ⟨0, 1, 2⟩).2
      "p" ⟨3, 4, 5⟩ =
      (.ok (Fernet.generate_key 1),
       (get_or_create_file_master_key ⟨none, none, none⟩ "p" ⟨0, 1, 2⟩).2) :=
  c5_first_run_idempotent_key ⟨none, none, none⟩ "p" ⟨0, 1, 2⟩ ⟨3, 4, 5⟩
    (Fernet.generate_key 1) _ rfl rfl (by decide) rfl

/-- C6 counterexample: the key-derivation helper
(`_derive_wrapping_fernet_key`) performs no empty-password check: at
the concrete empty password it returns a derived wrapping key rather
than failing (its Python source derives from any password; only
`get_or_create_file_master_key` rejects the empty password). -/
theorem c6_counterexample :
    derive_wrapping_fernet_key "" [1] 390000 = WKey.pbkdf2 "" [1] 390000 :=
  rfl

/-- C6 (amended): for every key-store state, calling
`get_or_create_file_master_key` with an empty password fails with
`invalidInput` (and writes nothing); the empty-password rejection lives
only at this entry point — the internal derivation helper itself
derives a key from any password, the empty one included. -/
theorem c6_empty_password_rejection (st : AppSettings) (e : Entropy) :
    get_or_create_file_master_key st "" e = (.error .invalidInput, st) := by
  simp [get_or_create_file_master_key]

/-- `os.urandom n` returns `n` bytes. -/
theorem os_urandom_length (n seed : Nat) : (os_urandom n seed).length = n := by
  simp [os_urandom]

/-- Output length of urlsafe base64: 4 characters per 3-byte block,
padded. -/
theorem b64e_len : ∀ (l : Bytes), (b64e l).length = 4 * ((l.length + 2) / 3)
  | [] => rfl
  | [_] => by simp [b64e]
  | [_, _] => by simp [b64e]
  | a :: b :: c :: rest => by
      have ih := b64e_len rest
      simp only [b64e, List.length_cons, ih]
      have h3 : rest.length + 1 + 1 + 1 + 2 = rest.length + 2 + 3 := by omega
      rw [h3, Nat.add_div_right _ (by omega)]
      ring

/-- `Fernet.generate_key()` output is 44 bytes long (urlsafe base64 of
32 random bytes). -/
theorem generate_key_length (s : Nat) : (Fernet.generate_key s).length = 44 := by
  simp [Fernet.generate_key, b64e_len, os_urandom]

/-- C4: Iteration-count normalization: a missing or below-floor
(100,000) stored iteration count is silently replaced by the default
(390,000) while a stored value at or above the floor is used as-is;
the resulting effective value is the one used both for the key
derivation of the call (first-run wrap and subsequent unwrap) and for
the settings row the first-run call writes, and an out-of-range or
missing stored value never makes the call fail. -/
theorem c4_iteration_normalization (st : AppSettings) (pw : String) (e : Entropy)
    (hpw : pw ≠ "") :
    (st.kdf_iters = none → effective_kdf_iters st.kdf_iters = DEFAULT_KDF_ITERS) ∧
    (∀ v, st.kdf_iters = some v → v < 100000 →
      effective_kdf_iters st.kdf_iters = DEFAULT_KDF_ITERS) ∧
    (∀ v, st.kdf_iters = some v → 100000 ≤ v → effective_kdf_iters st.kdf_iters = v) ∧
    (st.fmk_wrapped = none → st.fmk_salt = none →
      (get_or_create_file_master_key st pw e).1 = .ok (Fernet.generate_key e.fmkSeed) ∧
      (get_or_create_file_master_key st pw e).2.kdf_iters =
        some (effective_kdf_iters st.kdf_iters) ∧
      ∃ w, (get_or_create_file_master_key st pw e).2.fmk_wrapped = some w ∧
        w.key = derive_wrapping_fernet_key pw (os_urandom 16 e.saltSeed)
          (effective_kdf_iters st.kdf_iters)) ∧
    (∀ w salt, st.fmk_wrapped = some w → st.fmk_salt = some salt →
      ((get_or_create_file_master_key st pw e).1 = .ok w.payload ↔
        w.key = derive_wrapping_fernet_key pw salt (effective_kdf_iters st.kdf_iters))) := by
  refine ⟨?_, ?_, ?_, ?_, ?_⟩
  · intro h
    rw [h]
    rfl
  · intro v h hv
    rw [h]
    simp only [effective_kdf_iters, Option.getD]
    rw [if_pos hv]
  · intro v h hv
    rw [h]
    exact effective_kdf_iters_of_ge v hv
  · intro hw hs
    rw [goc_first_run st pw e hpw hw hs]
    exact ⟨rfl, rfl, _, rfl, Fernet.encrypt_key ..⟩
  · intro w salt hw hs
    rw [goc_existing st pw e w salt hpw hw hs]
    by_cases hkey : w.key = derive_wrapping_fernet_key pw salt (effective_kdf_iters st.kdf_iters) <;>
      simp [hkey]

/-- Witness for C4: a stored below-floor count of 1000 is normalized to
the default, and the first-run write stores the normalized value. -/
theorem c4_iteration_normalization_witness :
    effective_kdf_iters (some 1000) = DEFAULT_KDF_ITERS ∧
    (get_or_create_file_master_key ⟨none, none, some 1000⟩ "p" ⟨0, 0, 0⟩).2.kdf_iters =
      some (effective_kdf_iters (some 1000)) := by
  have h := c4_iteration_normalization ⟨none, none, some 1000⟩ "p" ⟨0, 0, 0⟩ (by decide)
  exact ⟨h.2.1 1000 rfl (by decide), (h.2.2.2.1 rfl rfl).2.1⟩

/-- C7 counterexample: the first unlock against an empty key store does
NOT return 32 raw bytes: at a concrete first run the returned FMK is
`Fernet.generate_key` output, which is 44 bytes (the urlsafe-base64
encoding of 32 random bytes), not 32. -/
theorem c7_counterexample :
    (get_or_create_file_master_key ⟨none, none, none⟩ "correct-horse" ⟨0, 0, 0⟩).1 =
      .ok (Fernet.generate_key 0) ∧
    (Fernet.generate_key 0).length = 44 ∧ (Fernet.generate_key 0).length ≠ 32 :=
  ⟨rfl, rfl, by decide⟩

/-- C7 (amended): the first call against an empty key store with a
non-empty password creates key material — a fresh 128-bit (16-byte)
random salt and a fresh random FMK from the authenticated-encryption
primitive's native key generator — and returns that FMK, which is the
44-byte urlsafe-base64 encoding of 32 random bytes (not 32 raw
bytes). -/
theorem c7_first_unlock_key_material
    (st : AppSettings) (pw : String) (e : Entropy)
    (hpw : pw ≠ "") (hw : st.fmk_wrapped = none) (hs : st.fmk_salt = none) :
    (get_or_create_file_master_key st pw e).1 = .ok (Fernet.generate_key e.fmkSeed) ∧
    (get_or_create_file_master_key st pw e).2.fmk_salt = some (os_urandom 16 e.saltSeed) ∧
    (os_urandom 16 e.saltSeed).length = 16 ∧
    Fernet.generate_key e.fmkSeed = b64e (os_urandom 32 e.fmkSeed) ∧
    (os_urandom 32 e.fmkSeed).length = 32 ∧
    (Fernet.generate_key e.fmkSeed).length = 44 := by
  rw [goc_first_run st pw e hpw hw hs]
  exact ⟨rfl, rfl, os_urandom_length .., rfl, os_urandom_length .., generate_key_length _⟩

/-- Witness for C7 (amended): concrete first unlock with password
"correct-horse" returns a 44-byte FMK and stores a 16-byte salt. -/
theorem c7_first_unlock_key_material_witness :
    (get_or_create_file_master_key ⟨none, none, none⟩ "correct-horse" ⟨0, 0, 0⟩).1 =
      .ok (Fernet.generate_key 0) ∧
    (os_urandom 16 0).length = 16 ∧ (Fernet.generate_key 0).length = 44 := by
  have h := c7_first_unlock_key_material ⟨none, none, none⟩ "correct-horse" ⟨0, 0, 0⟩
    (by decide) rfl rfl
  exact ⟨h.1, h.2.2.1, h.2.2.2.2.2⟩

/-! ## Documents view (`src/views/documents.py`) and database layer -/

/-- Decimal digit extraction, structurally recursive on a fuel bound
(any `fuel > n` yields the digits of `n`). -/
def decDigitsAux : Nat → Nat → List Char
  | 0, _ => []
  | fuel + 1, n =>
      if n < 10 then [Nat.digitChar n]
      else decDigitsAux fuel (n / 10) ++ [Nat.digitChar (n % 10)]

/-- Python's `str` on a natural number: decimal digits. -/
def decDigits (n : Nat) : List Char := decDigitsAux (n + 1) n

/-- Python's `str` on a natural number, as a `String`. -/
def decStr (n : Nat) : String := ⟨decDigits n⟩

theorem decStr_data (n : Nat) : (decStr n).data = decDigits n := rfl

theorem digitChar_toNat : ∀ d < 10, (Nat.digitChar d).toNat = 48 + d := by decide

/-- Decimal value of a digit string (left fold), used to invert
`decDigits`. -/
def decVal (l : List Char) : Nat :=
  l.foldl (fun a c => a * 10 + (c.toNat - 48)) 0

theorem decVal_append_digit (l : List Char) (c : Char) :
    decVal (l ++ [c]) = decVal l * 10 + (c.toNat - 48) := by
  simp [decVal, List.foldl_append]

theorem decVal_decDigitsAux : ∀ (fuel n : Nat), n < fuel →
    decVal (decDigitsAux fuel n) = n := by
  intro fuel
  induction fuel with
  | zero => omega
  | succ fuel ih =>
      intro n h
      simp only [decDigitsAux]
      split
      · rename_i h10
        simp [decVal, digitChar_toNat n h10]
      · rename_i h10
        push_neg at h10
        have hd : n / 10 < n := Nat.div_lt_self (by omega) (by omega)
        rw [decVal_append_digit, ih (n / 10) (by omega),
          digitChar_toNat (n % 10) (Nat.mod_lt _ (by omega))]
        omega

theorem decVal_decDigits (n : Nat) : decVal (decDigits n) = n :=
  decVal_decDigitsAux (n + 1) n (by omega)

theorem decDigits_inj {m n : Nat} (h : decDigits m = decDigits n) : m = n := by
  have hm := decVal_decDigits m
  rw [h, decVal_decDigits n] at hm
  exact hm.symm

theorem decStr_inj {m n : Nat} (h : decStr m = decStr n) : m = n :=
  decDigits_inj (congrArg String.data h)

theorem decDigits_length_pos (n : Nat) : 0 < (decDigits n).length := by
  simp only [decDigits, decDigitsAux]
  split <;> simp

/-- String concatenation acts as list concatenation on the underlying
character data. -/
theorem string_data_append (s t : String) : (s ++ t).data = s.data ++ t.data := rfl

/-- Helper for `os.path.splitext`: split a character list at its last
dot (the dot goes with the extension); no dot yields an empty
extension. -/
def splitLastDot : List Char → List Char × List Char
  | [] => ([], [])
  | c :: rest =>
      if (splitLastDot rest).2 = [] then
        if c = '.' then ([], c :: rest) else (c :: rest, [])
      else (c :: (splitLastDot rest).1, (splitLastDot rest).2)

theorem splitLastDot_append : ∀ (l : List Char),
    (splitLastDot l).1 ++ (splitLastDot l).2 = l
  | [] => rfl
  | c :: rest => by
      have ih := splitLastDot_append rest
      simp only [splitLastDot]
      split
      · split <;> simp
      · simp [ih]

/-- `os.path.splitext` on a bare file name: the extension starts at the
last dot, except that a leading run of dots never starts an
extension. -/
def splitext (name : String) : String × String :=
  (⟨name.data.takeWhile (fun c => c = '.') ++
      (splitLastDot (name.data.dropWhile (fun c => c = '.'))).1⟩,
   ⟨(splitLastDot (name.data.dropWhile (fun c => c = '.'))).2⟩)

/-- `splitext` splits the name: root and extension concatenate back to
the original name. -/
theorem splitext_append (name : String) :
    (splitext name).1 ++ (splitext name).2 = name := by
  show String.mk _ ++ String.mk _ = name
  have hmk : ∀ a b : List Char, String.mk a ++ String.mk b = String.mk (a ++ b) :=
    fun a b => rfl
  rw [hmk, List.append_assoc, splitLastDot_append, List.takeWhile_append_dropWhile]

/-- Root and extension lengths add up to the name's length. -/
theorem splitext_length (name : String) :
    (splitext name).1.data.length + (splitext name).2.data.length = name.data.length := by
  have h := congrArg (fun s => s.data.length) (splitext_append name)
  simpa [string_data_append] using h

/-- Document metadata row of the `documents` table
(`src/database.py`): owner, display name, ciphertext path, upload
date. -/
structure Doc where
  patient_id : Nat
  file_name : String
  file_path : String
  upload_date : String
deriving DecidableEq

/-- `add_document` from `src/database.py`: inserts a document row. -/
def add_document (docs : List Doc) (pid : Nat)
    (file_name file_path upload_date : String) : List Doc :=
  docs ++ [⟨pid, file_name, file_path, upload_date⟩]

/-- `get_patient_documents` from `src/database.py` (lines 101-105):
`SELECT file_name, upload_date, file_path FROM documents WHERE
patient_id = ?` — each result row has exactly these THREE fields. -/
def get_patient_documents (docs : List Doc) (pid : Nat) : List (List String) :=
  (docs.filter (fun d => d.patient_id == pid)).map
    (fun d => [d.file_name, d.upload_date, d.file_path])

/-- The destination of an uploaded file named `name` for patient
`pid`: `data/<pid>/<name>.enc` (`enc_target` in
`upload_document_click`). -/
def enc_target_path (pid : Nat) (name : String) : String :=
  "data/" ++ decStr pid ++ "/" ++ name ++ ".enc"

/-- The counter-suffixed candidate name
`f"{name_root} ({counter}){name_ext}"`. -/
def suffixed_name (root ext : String) (counter : Nat) : String :=
  root ++ " (" ++ decStr counter ++ ")" ++ ext

/-- The collision-avoidance `while` loop of `upload_document_click`:
starting from counter 1, try suffixed candidates until one's `.enc`
target does not exist.  `fuel` bounds the iteration count; with
`fuel > number of occupied candidates` (as used below) the loop always
stops at the first free candidate, so the bound is never hit and the
fuel-exhausted fallback (which returns the current candidate, exactly
as the loop body would next produce) is unreachable. -/
def dedupe_name (disk : List String) (pid : Nat) (root ext : String) :
    Nat → Nat → String
  | counter, 0 => suffixed_name root ext counter
  | counter, fuel + 1 =>
      if enc_target_path pid (suffixed_name root ext counter) ∈ disk
      then dedupe_name disk pid root ext (counter + 1) fuel
      else suffixed_name root ext counter

/-- The full rename logic of `upload_document_click` (lines 284-298 of
`src/views/documents.py`): keep the original name when its `.enc`
target is free, otherwise insert a counter suffix before the
extension. -/
def choose_upload_name (disk : List String) (pid : Nat) (original : String) : String :=
  if enc_target_path pid original ∈ disk
  then dedupe_name disk pid (splitext original).1 (splitext original).2 1
    (disk.length + 1)
  else original

/-- Externally visible effects of an upload, in program order:
ciphertext write to disk, then the metadata insert. -/
inductive Eff
  | writeEnc (path : String) (ct : Fernet.Tok Bytes)
  | insertDoc (pid : Nat) (file_name file_path upload_date : String)
deriving DecidableEq

/-- Joint state touched by the documents view: crypto settings rows,
document metadata rows, and the set of `.enc` paths on disk. -/
structure AppState where
  settings : AppSettings
  docs : List Doc
  disk : List String
deriving DecidableEq

/-- `upload_document_click` from `src/views/documents.py` (lines
255-330): pick a non-colliding destination name, obtain the FMK
(propagating its errors, in which case nothing is written), encrypt,
write ciphertext, then record metadata.  Returns the new state, the
ordered effect trace, and the error if any. -/
def upload_document_click (s : AppState) (pw : String) (e : Entropy) (nonce : Nat)
    (pid : Nat) (origName : String) (content : Bytes) (date : String) :
    AppState × List Eff × Option CryptoErr :=
  let file_name := choose_upload_name s.disk pid origName
  let enc_path := enc_target_path pid file_name
  match get_or_create_file_master_key s.settings pw e with
  | (.ok fmk, st') =>
      let ct := encrypt_bytes fmk nonce content
      ({ settings := st',
         docs := add_document s.docs pid file_name enc_path date,
         disk := s.disk ++ [enc_path] },
       [.writeEnc enc_path ct, .insertDoc pid file_name enc_path date],
       none)
  | (.error err, st') => ({ s with settings := st' }, [], some err)

/-- `tempfile.gettempdir()`, fixed for the process. -/
def TMP_DIR : String := "/tmp"

/-- The temporary plaintext location chosen by `open_doc_async` (line
165 of `src/views/documents.py`):
`os.path.join(tmp_dir, f"lpa_decrypted_{patient_id}_{int(datetime.now().timestamp())}.pdf")`
— determined by the patient id and the WHOLE-SECOND timestamp of the
open. -/
def tmp_plain_path (pid ts : Nat) : String :=
  TMP_DIR ++ "/lpa_decrypted_" ++ decStr pid ++ "_" ++ decStr ts ++ ".pdf"

/-- `open_doc_async` from `src/views/documents.py` (lines 146-172):
look up the ciphertext, unwrap the FMK, decrypt, and write the
plaintext to the temporary path; any failure shows a snack and writes
nothing.  Returns the temporary path written and the plaintext, if
successful.  (`ts` is the open's `int(datetime.now().timestamp())`.) -/
def open_doc_async (disk : List (String × Fernet.Tok Bytes)) (st : AppSettings)
    (pw : String) (e : Entropy) (pid ts : Nat) (path : String) :
    Option (String × Bytes) :=
  if path = "" then none
  else
    match disk.lookup path with
    | none => none
    | some ct =>
        match (get_or_create_file_master_key st pw e).1 with
        | .error _ => none
        | .ok fmk =>
            match decrypt_bytes fmk ct with
            | .error _ => none
            | .ok plaintext => some (tmp_plain_path pid ts, plaintext)

/-- The tuple unpacking
`doc_id, file_name, upload_date, file_path = doc` in `refresh_table`:
succeeds only on rows of exactly four fields; any other shape raises
and the row is skipped (`except Exception: continue`). -/
def unpack4 : List String → Option (String × String × String × String)
  | [a, b, c, d] => some (a, b, c, d)
  | _ => none

/-- Python's substring test `needle in hay`. -/
def strContains (hay needle : String) : Bool :=
  hay.data.tails.any (fun t => needle.data.isPrefixOf t)

/-- The row-building loop of `refresh_table` (lines 207-250 of
`src/views/documents.py`): for each record from
`get_patient_documents`, unpack four fields (skipping the record on
failure), apply the lower-cased search filter to the file name, and
emit the row data. -/
def refresh_table_rows (docRows : List (List String)) (filter_text : String) :
    List (String × String × String × String) :=
  docRows.filterMap (fun doc =>
    match unpack4 doc with
    | none => none
    | some r =>
        if filter_text.toLower ≠ "" ∧ strContains r.2.1.toLower filter_text.toLower = false
        then none
        else some r)

/-- C10: `refresh_table` silently skips any record that does not unpack
into exactly four fields; since `get_patient_documents` returns
three-field records (file_name, upload_date, file_path), every stored
document record is skipped and the rendered table is always empty,
regardless of the database contents and of the search filter. -/
theorem c10_refresh_table_always_empty (docs : List Doc) (pid : Nat) (filter_text : String) :
    refresh_table_rows (get_patient_documents docs pid) filter_text = [] := by
  unfold refresh_table_rows get_patient_documents
  generalize (docs.filter fun d => d.patient_id == pid) = l
  induction l with
  | nil => rfl
  | cons d t ih =>
      simp only [List.map_cons, List.filterMap_cons]
      exact ih

/-- Every successful open writes its plaintext to the path determined
by the patient id and the open's whole-second timestamp. -/
theorem open_doc_tmp_eq {disk : List (String × Fernet.Tok Bytes)} {st : AppSettings}
    {pw : String} {e : Entropy} {pid ts : Nat} {path t : String} {b : Bytes}
    (h : open_doc_async disk st pw e pid ts path = some (t, b)) :
    t = tmp_plain_path pid ts := by
  unfold open_doc_async at h
  split at h
  · simp at h
  · split at h
    · simp at h
    · split at h
      · simp at h
      · split at h
        · simp at h
        · simp only [Option.some.injEq, Prod.mk.injEq] at h
          exact h.1.symm

/-- For a fixed patient, distinct whole-second timestamps give distinct
temporary paths. -/
theorem tmp_plain_path_inj {pid ts1 ts2 : Nat}
    (h : tmp_plain_path pid ts1 = tmp_plain_path pid ts2) : ts1 = ts2 := by
  have hd := congrArg String.data h
  simp only [tmp_plain_path, string_data_append, decStr_data, List.append_assoc] at hd
  exact decDigits_inj (List.append_cancel_right
    (List.append_cancel_left (List.append_cancel_left
      (List.append_cancel_left (List.append_cancel_left hd)))))

/-- C9 counterexample: two DISTINCT open operations (different
ciphertext paths, different plaintexts) performed for the same patient
within the same whole second write to the SAME temporary path — the
temporary location is not unique per open. -/
theorem c9_counterexample :
    open_doc_async
      [("a.enc", encrypt_bytes (Fernet.generate_key 0) 5 [1]),
       ("b.enc", encrypt_bytes (Fernet.generate_key 0) 6 [2])]
      (get_or_create_file_master_key ⟨none, none, none⟩ "p" ⟨0, 0, 0⟩).2
      "p" ⟨7, 8, 9⟩ 1 100 "a.enc" = some (tmp_plain_path 1 100, [1]) ∧
    open_doc_async
      [("a.enc", encrypt_bytes (Fernet.generate_key 0) 5 [1]),
       ("b.enc", encrypt_bytes (Fernet.generate_key 0) 6 [2])]
      (get_or_create_file_master_key ⟨none, none, none⟩ "p" ⟨0, 0, 0⟩).2
      "p" ⟨7, 8, 9⟩ 1 100 "b.enc" = some (tmp_plain_path 1 100, [2]) ∧
    "a.enc" ≠ "b.enc" :=
  ⟨rfl, rfl, by decide⟩

/-- C9 (amended): the temporary plaintext location chosen by an open
operation is determined by the patient id and the open's WHOLE-SECOND
timestamp: two successful opens with different integer timestamps
choose different temporary paths, but two opens of the same patient
within the same second choose the same path (the temporary file is
reused/overwritten rather than fresh per open). -/
theorem c9_tmp_path_freshness
    (disk : List (String × Fernet.Tok Bytes)) (st : AppSettings) (pw : String)
    (e1 e2 : Entropy) (pid ts1 ts2 : Nat) (path1 path2 : String)
    (t1 t2 : String) (b1 b2 : Bytes)
    (h1 : open_doc_async disk st pw e1 pid ts1 path1 = some (t1, b1))
    (h2 : open_doc_async disk st pw e2 pid ts2 path2 = some (t2, b2)) :
    (ts1 ≠ ts2 → t1 ≠ t2) ∧ (ts1 = ts2 → t1 = t2) := by
  rw [open_doc_tmp_eq h1, open_doc_tmp_eq h2]
  constructor
  · intro hne heq
    exact hne (tmp_plain_path_inj heq)
  · intro heq
    rw [heq]

/-- Witness for C9 (amended): two concrete opens one second apart get
distinct temporary paths. -/
theorem c9_tmp_path_freshness_witness :
    tmp_plain_path 1 100 ≠ tmp_plain_path 1 101 := by
  have h := c9_tmp_path_freshness
    [("a.enc", encrypt_bytes (Fernet.generate_key 0) 5 [1])]
    (get_or_create_file_master_key ⟨none, none, none⟩ "p" ⟨0, 0, 0⟩).2
    "p" ⟨7, 8, 9⟩ ⟨7, 8, 9⟩ 1 100 101 "a.enc" "a.enc"
    (tmp_plain_path 1 100) (tmp_plain_path 1 101) [1] [1] rfl rfl
  exact h.1 (by decide)

/-- The collision loop only ever returns counter-suffixed names, with a
counter at least its starting value. -/
theorem dedupe_name_form (disk : List String) (pid : Nat) (root ext : String) :
    ∀ (fuel counter : Nat), ∃ N, counter ≤ N ∧
      dedupe_name disk pid root ext counter fuel = suffixed_name root ext N := by
  intro fuel
  induction fuel with
  | zero => exact fun counter => ⟨counter, Nat.le_refl _, rfl⟩
  | succ fuel ih =>
      intro counter
      by_cases hmem : enc_target_path pid (suffixed_name root ext counter) ∈ disk
      · obtain ⟨N, hN, hEq⟩ := ih (counter + 1)
        refine ⟨N, by omega, ?_⟩
        simp only [dedupe_name]
        rw [if_pos hmem]
        exact hEq
      · refine ⟨counter, Nat.le_refl _, ?_⟩
        simp only [dedupe_name]
        rw [if_neg hmem]

/-- Character count of a suffixed name: the base name plus the counter
digits plus the three characters of " (" and ")". -/
theorem suffixed_name_data_length (root ext : String) (n : Nat) :
    (suffixed_name root ext n).data.length =
      root.data.length + ext.data.length + (decDigits n).length + 3 := by
  have hd : ∀ s t : String, (s ++ t).data.length = s.data.length + t.data.length :=
    fun s t => by rw [string_data_append, List.length_append]
  unfold suffixed_name
  rw [hd, hd, hd, hd]
  have h1 : (" (" : String).data.length = 2 := rfl
  have h2 : (")" : String).data.length = 1 := rfl
  rw [h1, h2, decStr_data]
  omega

/-- A suffixed version of a name is never the name itself (it is three
or more characters longer). -/
theorem suffixed_name_ne (name : String) (n : Nat) :
    suffixed_name (splitext name).1 (splitext name).2 n ≠ name := by
  intro h
  have hl := congrArg (fun s => s.data.length) h
  simp only [suffixed_name_data_length] at hl
  have hs := splitext_length name
  have hp := decDigits_length_pos n
  omega

/-- Character count of an encryption target path. -/
theorem enc_target_path_data_length (pid : Nat) (name : String) :
    (enc_target_path pid name).data.length =
      (decDigits pid).length + name.data.length + 10 := by
  have hd : ∀ s t : String, (s ++ t).data.length = s.data.length + t.data.length :=
    fun s t => by rw [string_data_append, List.length_append]
  unfold enc_target_path
  rw [hd, hd, hd, hd]
  have h1 : ("data/" : String).data.length = 5 := rfl
  have h2 : ("/" : String).data.length = 1 := rfl
  have h3 : (".enc" : String).data.length = 4 := rfl
  rw [h1, h2, h3, decStr_data]
  omega

/-- Names of different lengths have different `.enc` targets. -/
theorem enc_target_path_ne (pid : Nat) (a b : String)
    (h : a.data.length ≠ b.data.length) :
    enc_target_path pid a ≠ enc_target_path pid b := by
  intro he
  have hl := congrArg (fun s => s.data.length) he
  simp only [enc_target_path_data_length] at hl
  omega

/-- A successful FMK fetch makes the upload write the ciphertext and
then insert the metadata row for the chosen (de-duplicated) name. -/
theorem upload_ok (s : AppState) (pw : String) (e : Entropy) (nonce : Nat)
    (pid : Nat) (origName : String) (content : Bytes) (date : String)
    (fmk : Bytes) (st' : AppSettings)
    (hgoc : get_or_create_file_master_key s.settings pw e = (.ok fmk, st')) :
    upload_document_click s pw e nonce pid origName content date =
      ({ settings := st',
         docs := s.docs ++ [⟨pid, choose_upload_name s.disk pid origName,
           enc_target_path pid (choose_upload_name s.disk pid origName), date⟩],
         disk := s.disk ++ [enc_target_path pid (choose_upload_name s.disk pid origName)] },
       [.writeEnc (enc_target_path pid (choose_upload_name s.disk pid origName))
          (encrypt_bytes fmk nonce content),
        .insertDoc pid (choose_upload_name s.disk pid origName)
          (enc_target_path pid (choose_upload_name s.disk pid origName)) date],
       none) := by
  unfold upload_document_click add_document
  rw [hgoc]

/-- C8: Filename de-duplication on upload: a source file whose `.enc`
target already exists gets a counter suffix " (N)" inserted before the
extension; in particular two uploads of the same display name (here
from a fresh key store, with no conflicting suffixed target
pre-existing) produce two distinct `.enc` paths, the second carrying a
" (1)" suffix before the extension; each upload's effect trace writes
the ciphertext to disk FIRST and inserts the metadata row recording
that same path SECOND, and the two recorded rows carry their own
distinct ciphertext paths. -/
theorem c8_upload_filename_dedup
    (s : AppState) (pw : String) (e1 e2 : Entropy) (n1 n2 : Nat) (pid : Nat)
    (name : String) (c1 c2 : Bytes) (d1 d2 : String)
    (hpw : pw ≠ "") (hw : s.settings.fmk_wrapped = none) (hs : s.settings.fmk_salt = none)
    (hfree1 : enc_target_path pid name ∉ s.disk)
    (hfree2 : enc_target_path pid
      (suffixed_name (splitext name).1 (splitext name).2 1) ∉ s.disk) :
    (∀ (disk : List String) (orig : String), enc_target_path pid orig ∈ disk →
      ∃ N, 1 ≤ N ∧ choose_upload_name disk pid orig =
        suffixed_name (splitext orig).1 (splitext orig).2 N) ∧
    (upload_document_click s pw e1 n1 pid name c1 d1).2.1 =
      [.writeEnc (enc_target_path pid name)
         (encrypt_bytes (Fernet.generate_key e1.fmkSeed) n1 c1),
       .insertDoc pid name (enc_target_path pid name) d1] ∧
    (upload_document_click s pw e1 n1 pid name c1 d1).2.2 = none ∧
    (upload_document_click (upload_document_click s pw e1 n1 pid name c1 d1).1
        pw e2 n2 pid name c2 d2).2.1 =
      [.writeEnc (enc_target_path pid (suffixed_name (splitext name).1 (splitext name).2 1))
         (encrypt_bytes (Fernet.generate_key e1.fmkSeed) n2 c2),
       .insertDoc pid (suffixed_name (splitext name).1 (splitext name).2 1)
         (enc_target_path pid (suffixed_name (splitext name).1 (splitext name).2 1)) d2] ∧
    (upload_document_click (upload_document_click s pw e1 n1 pid name c1 d1).1
        pw e2 n2 pid name c2 d2).2.2 = none ∧
    (upload_document_click (upload_document_click s pw e1 n1 pid name c1 d1).1
        pw e2 n2 pid name c2 d2).1.docs =
      s.docs ++
        [⟨pid, name, enc_target_path pid name, d1⟩,
         ⟨pid, suffixed_name (splitext name).1 (splitext name).2 1,
          enc_target_path pid (suffixed_name (splitext name).1 (splitext name).2 1), d2⟩] ∧
    enc_target_path pid name ≠
      enc_target_path pid (suffixed_name (splitext name).1 (splitext name).2 1) := by
  have hp2p1 : enc_target_path pid (suffixed_name (splitext name).1 (splitext name).2 1) ≠
      enc_target_path pid name := by
    apply enc_target_path_ne
    rw [suffixed_name_data_length]
    have hsl := splitext_length name
    have hdp := decDigits_length_pos 1
    omega
  have hname1 : choose_upload_name s.disk pid name = name := by
    unfold choose_upload_name
    rw [if_neg hfree1]
  have hg1 := goc_first_run s.settings pw e1 hpw hw hs
  have hr1 := upload_ok s pw e1 n1 pid name c1 d1 _ _ hg1
  rw [hname1] at hr1
  have hname2 : choose_upload_name (s.disk ++ [enc_target_path pid name]) pid name =
      suffixed_name (splitext name).1 (splitext name).2 1 := by
    unfold choose_upload_name
    rw [if_pos (by simp)]
    have hlen : (s.disk ++ [enc_target_path pid name]).length + 1 =
        s.disk.length + 1 + 1 := by simp
    rw [hlen]
    simp only [dedupe_name]
    rw [if_neg]
    simp only [List.mem_append, List.mem_singleton]
    push_neg
    exact ⟨hfree2, hp2p1⟩
  have hg2 : get_or_create_file_master_key
      { fmk_wrapped := some (Fernet.encrypt
          (derive_wrapping_fernet_key pw (os_urandom 16 e1.saltSeed)
            (effective_kdf_iters s.settings.kdf_iters))
          e1.nonceSeed (Fernet.generate_key e1.fmkSeed)),
        fmk_salt := some (os_urandom 16 e1.saltSeed),
        kdf_iters := some (effective_kdf_iters s.settings.kdf_iters) } pw e2 =
      (.ok (Fernet.generate_key e1.fmkSeed),
       { fmk_wrapped := some (Fernet.encrypt
           (derive_wrapping_fernet_key pw (os_urandom 16 e1.saltSeed)
             (effective_kdf_iters s.settings.kdf_iters))
           e1.nonceSeed (Fernet.generate_key e1.fmkSeed)),
         fmk_salt := some (os_urandom 16 e1.saltSeed),
         kdf_iters := some (effective_kdf_iters s.settings.kdf_iters) }) := by
    rw [goc_existing _ pw e2 _ _ hpw rfl rfl, if_pos]
    · rw [Fernet.encrypt_payload]
    · rw [Fernet.encrypt_key, effective_kdf_iters_idem]
  have hr2 := upload_ok (upload_document_click s pw e1 n1 pid name c1 d1).1
    pw e2 n2 pid name c2 d2 (Fernet.generate_key e1.fmkSeed) _ (by rw [hr1]; exact hg2)
  simp only [hr1] at hr2
  rw [hname2] at hr2
  refine ⟨?_, by rw [hr1], by rw [hr1], by rw [hr1, hr2], by rw [hr1, hr2], ?_, hp2p1.symm⟩
  · intro disk orig hmem
    unfold choose_upload_name
    rw [if_pos hmem]
    exact dedupe_name_form disk pid _ _ _ 1
  · rw [hr1, hr2]
    simp

/-- Witness for C8: two concrete uploads of "report.pdf" for patient 1
into an empty store yield the rows "report.pdf" and "report (1).pdf"
with distinct `.enc` paths. -/
theorem c8_upload_filename_dedup_witness :
    (upload_document_click
      (upload_document_click ⟨⟨none, none, none⟩, [], []⟩ "p" ⟨0, 1, 2⟩ 3 1
        "report.pdf" [9] "d1").1
      "p" ⟨4, 5, 6⟩ 7 1 "report.pdf" [8] "d2").1.docs =
      [⟨1, "report.pdf", enc_target_path 1 "report.pdf", "d1"⟩,
       ⟨1, "report (1).pdf", enc_target_path 1 "report (1).pdf", "d2"⟩] ∧
    enc_target_path 1 "report.pdf" ≠ enc_target_path 1 "report (1).pdf" := by
  have h := (c8_upload_filename_dedup ⟨⟨none, none, none⟩, [], []⟩ "p" ⟨0, 1, 2⟩ ⟨4, 5, 6⟩
    3 7 1 "report.pdf" [9] [8] "d1" "d2" (by decide) rfl rfl (by simp) (by simp)).2
  have hsfx : suffixed_name (splitext "report.pdf").1 (splitext "report.pdf").2 1 =
      "report (1).pdf" := by decide
  rw [hsfx] at h
  obtain ⟨-, -, -, -, hdocs, hne⟩ := h
  exact ⟨by rw [hdocs]; rfl, hne⟩
